import Mathlib

/-!
Verification of `scripts/init.go` (go-template-project initializer).

The Go regex patterns (anchored with `^`/`$`, so `regexp.MatchString` is a
full-string match) are embedded as `RegularExpression Char` values whose
character classes are transliterated into explicit character lists, and the
validators use Mathlib's verified matcher `rmatch`.  The interactive,
filesystem and subprocess effects are embedded with explicit state passing:
standard input is the list of unread lines, the project tree is the list of
its entries, and external `git`/`pre-commit` invocations are oracles.
-/

namespace InitGo

/-! ## Character classes and regular expressions (init.go lines 43-47) -/

/-- The characters of the class `[a-zA-Z0-9]`. -/
def alnumChars : List Char :=
  "abcdefghijklmnopqrstuvwxyzABCDEFGHIJKLMNOPQRSTUVWXYZ0123456789".data

/-- The characters of the class `[a-zA-Z0-9-]`. -/
def alnumHyphenChars : List Char := alnumChars ++ ['-']

/-- The characters of the class `[a-zA-Z0-9-_.]` (hyphen, underscore and dot
are literals in this Go/RE2 class). -/
def alnumHyphenUnderDotChars : List Char := alnumChars ++ ['-', '_', '.']

/-- A character class `[c₁c₂…]`: union of single-character regexes. -/
def oneOf (cs : List Char) : RegularExpression Char :=
  cs.foldr (fun c r => RegularExpression.char c + r) 0

/-- A segment `[a-zA-Z0-9][mid]*[a-zA-Z0-9]`, the building block of both
patterns in `scripts/init.go` lines 44-46. -/
def segRE (mid : List Char) : RegularExpression Char :=
  oneOf alnumChars * ((oneOf mid).star * oneOf alnumChars)

/-- Pattern `projectNamePattern = ^[a-zA-Z0-9][a-zA-Z0-9-]*[a-zA-Z0-9]$`
(init.go line 44). -/
def projectNameRE : RegularExpression Char := segRE alnumHyphenChars

/-- Pattern `modulePathPattern =
^[a-zA-Z0-9][a-zA-Z0-9-_.]*[a-zA-Z0-9]/[a-zA-Z0-9][a-zA-Z0-9-_.]*[a-zA-Z0-9]/[a-zA-Z0-9][a-zA-Z0-9-]*[a-zA-Z0-9]$`
(init.go lines 45-46). -/
def modulePathRE : RegularExpression Char :=
  segRE alnumHyphenUnderDotChars * (RegularExpression.char '/' *
    (segRE alnumHyphenUnderDotChars * (RegularExpression.char '/' *
      segRE alnumHyphenChars)))

/-- Function `isValidProjectName` (init.go lines 937-943):
`regexp.MatchString(projectNamePattern, name) && len(name) > 0`. -/
def isValidProjectName (name : String) : Bool :=
  projectNameRE.rmatch name.data && decide (0 < name.length)

/-- Function `isValidModulePath` (init.go lines 945-951):
`regexp.MatchString(modulePathPattern, path)`. -/
def isValidModulePath (path : String) : Bool :=
  modulePathRE.rmatch path.data

/-- Full-match semantics of a segment `[a-zA-Z0-9][mid]*[a-zA-Z0-9]`:
a first alphanumeric character, interior characters from `mid`, and a final
alphanumeric character (so at least two characters in total). -/
def SegSpec (mid : List Char) (x : List Char) : Prop :=
  ∃ c₀ m c₁, x = c₀ :: (m ++ [c₁]) ∧ c₀ ∈ alnumChars ∧
    (∀ c ∈ m, c ∈ mid) ∧ c₁ ∈ alnumChars

/-- Full-match semantics of `modulePathPattern`: three slash-separated
segments; the first two allow interior `-`, `_`, `.`, the third only `-`. -/
def ModulePathSpec (x : List Char) : Prop :=
  ∃ s₁ s₂ s₃, x = s₁ ++ '/' :: (s₂ ++ '/' :: s₃) ∧
    SegSpec alnumHyphenUnderDotChars s₁ ∧ SegSpec alnumHyphenUnderDotChars s₂ ∧
    SegSpec alnumHyphenChars s₃

/-- Refinement comparison only, following the words of the specification
claim for module paths: "exactly three slash-separated segments, each segment
beginning and ending with an alphanumeric character and allowing optional
interior `-`, `_` and `.` characters".  (The code's own pattern restricts the
third segment to interior `-`.) -/
def claimSegOK : List Char → Bool
  | [] => false
  | c :: cs =>
    match cs.getLast? with
    | none => decide (c ∈ alnumChars)
    | some d =>
      decide (c ∈ alnumChars) && decide (d ∈ alnumChars) &&
        cs.dropLast.all (fun e => decide (e ∈ alnumHyphenUnderDotChars))

/-- Split a character list at every `'/'` (helper of the claim-side module
path predicate). -/
def splitSlash : List Char → List (List Char)
  | [] => [[]]
  | c :: cs =>
    if c = '/' then [] :: splitSlash cs
    else
      match splitSlash cs with
      | [] => [[c]]
      | h :: t => (c :: h) :: t

/-- Refinement comparison only: the module-path acceptance condition as the
specification claim words it (three slash-separated segments, every segment
with optional interior `-`, `_`, `.`). -/
def modulePathClaimedSpec (s : String) : Bool :=
  match splitSlash s.data with
  | [s₁, s₂, s₃] => claimSegOK s₁ && claimSegOK s₂ && claimSegOK s₃
  | _ => false

/-! ## Go string primitives

The Go standard-library string functions the initializer uses are modelled
directly on the character list of a string (the model limits whitespace and
letter casing to the ASCII subset of Unicode, which covers every literal the
program compares against). -/

/-- ASCII whitespace as recognized by Go `strings.TrimSpace`. -/
def isSpaceChar (c : Char) : Bool :=
  c == ' ' || c == '\t' || c == '\n' || c == '\r'

/-- Character list with leading and trailing whitespace removed. -/
def trimList (l : List Char) : List Char :=
  ((l.dropWhile isSpaceChar).reverse.dropWhile isSpaceChar).reverse

/-- Go `strings.TrimSpace`. -/
def trimSpace (s : String) : String := ⟨trimList s.data⟩

/-- Lower-case an ASCII letter (Go `strings.ToLower`, per character). -/
def toLowerChar (c : Char) : Char :=
  if 'A' ≤ c ∧ c ≤ 'Z' then Char.ofNat (c.toNat + 32) else c

/-- Go `strings.ToLower`. -/
def toLowerString (s : String) : String := ⟨s.data.map toLowerChar⟩

/-! ## Interactive prompts (init.go lines 896-935)

Standard input is modelled as the list of lines still unread (each line
given without its trailing newline, which `strings.TrimSpace` would discard
anyway); a read at end of input is the model of a failed
`reader.ReadString('\n')`. -/

/-- Function `prompt` (init.go lines 896-903): a read failure yields `""`;
otherwise the line is returned trimmed. -/
def prompt (stdin : List String) : String × List String :=
  match stdin with
  | [] => ("", [])
  | l :: ls => (trimSpace l, ls)

/-- Function `promptWithDefault` (init.go lines 905-916): a read failure or a
blank line yields the default. -/
def promptWithDefault (stdin : List String) (defaultValue : String) :
    String × List String :=
  match stdin with
  | [] => (defaultValue, [])
  | l :: ls =>
    let answer := trimSpace l
    (if answer = "" then defaultValue else answer, ls)

/-- Function `promptBool` (init.go lines 918-935): a read failure or a blank
line (after `ToLower` then `TrimSpace`) yields the default; otherwise the
answer is `true` exactly for `y`/`yes` case-insensitively. -/
def promptBool (stdin : List String) (defaultValue : Bool) :
    Bool × List String :=
  match stdin with
  | [] => (defaultValue, [])
  | l :: ls =>
    let answer := trimSpace (toLowerString l)
    (if answer = "" then defaultValue
     else (answer == "y" || answer == "yes"), ls)

/-- Structure `ProjectConfig` (init.go lines 17-30). -/
structure ProjectConfig where
  projectName : String
  modulePath : String
  description : String
  author : String
  email : String
  license : String
  enableCLI : Bool
  enableServer : Bool
  enableWorker : Bool
  enableDocs : Bool
  enableE2ETests : Bool
  gitRemote : String
deriving DecidableEq, Repr

/-- Constant `defaultLicense` (init.go line 39). -/
def defaultLicense : String := "MIT"

/-- Constant `defaultAuthor` (init.go line 40). -/
def defaultAuthor : String := "Your Name"

/-- Constant `defaultEmail` (init.go line 41). -/
def defaultEmail : String := "your.email@example.com"

/-- Function `getGitConfig` (init.go lines 953-960), with the outcome of
`git config --global key` supplied as an oracle (`none` models a failing
command): on failure the fallback is returned, otherwise the trimmed output. -/
def getGitConfig (result : Option String) (fallback : String) : String :=
  match result with
  | none => fallback
  | some out => trimSpace out

/-- Function `filepath.Base` restricted to what `gatherProjectInfo` needs:
the last nonempty slash-separated component of the working directory (Go
returns "/" for an all-slash path and "." for the empty path). -/
def filepathBase (path : String) : String :=
  match ((splitSlash path.data).map (fun l => (⟨l⟩ : String))).reverse.find?
      (fun s => !(s == "")) with
  | some s => s
  | none => if path = "" then "." else "/"

/-- The environment `gatherProjectInfo` reads: standard input, the result of
`os.Getwd` (`none` models failure), and the two `git config --global` reads. -/
structure GatherEnv where
  stdin : List String
  cwd : Option String
  gitUserName : Option String
  gitUserEmail : Option String

/-- Everything `gatherProjectInfo` (init.go lines 76-131) does before the
final confirmation prompt: the twelve reads and the two validations, in
source order, with the early `return nil, err` branches as `Except.error`.
On success it returns the filled `ProjectConfig` together with the not yet
consumed standard input (whose next read is the confirmation prompt). -/
def gatherFields (env : GatherEnv) : Except String (ProjectConfig × List String) :=
  match env.cwd with
  | none => .error "failed to get current directory"
  | some cwd =>
    let defaultProjectName := filepathBase cwd
    let r1 := promptWithDefault env.stdin defaultProjectName
    if !isValidProjectName r1.1 then
      .error "invalid project name: must contain only letters, numbers, and hyphens"
    else
      let r2 := promptWithDefault r1.2 ("github.com/your-org/" ++ r1.1)
      if !isValidModulePath r2.1 then
        .error "invalid module path format"
      else
        let r3 := promptWithDefault r2.2 "A Go application built from go-template-project"
        let r4 := promptWithDefault r3.2 (getGitConfig env.gitUserName defaultAuthor)
        let r5 := promptWithDefault r4.2 (getGitConfig env.gitUserEmail defaultEmail)
        let r6 := promptWithDefault r5.2 defaultLicense
        let r7 := promptBool r6.2 true
        let r8 := promptBool r7.2 true
        let r9 := promptBool r8.2 false
        let r10 := promptBool r9.2 true
        let r11 := promptBool r10.2 false
        let r12 := prompt r11.2
        .ok ({ projectName := r1.1, modulePath := r2.1, description := r3.1,
               author := r4.1, email := r5.1, license := r6.1,
               enableCLI := r7.1, enableServer := r8.1, enableWorker := r9.1,
               enableDocs := r10.1, enableE2ETests := r11.1,
               gitRemote := r12.1 }, r12.2)

/-- Outcome of `gatherProjectInfo`: `error` is the `return nil, err` path
(`main` then dies via `log.Fatalf`), `cancelled` is the `os.Exit(0)` taken
when the confirmation prompt is declined, `proceed` returns the config. -/
inductive GatherResult where
  | error : String → GatherResult
  | cancelled : GatherResult
  | proceed : ProjectConfig → GatherResult
deriving DecidableEq, Repr

/-- Function `gatherProjectInfo` (init.go lines 76-139): the field-gathering
phase followed by the confirmation prompt (default `false`, init.go
line 133). -/
def gatherProjectInfo (env : GatherEnv) : GatherResult :=
  match gatherFields env with
  | .error m => .error m
  | .ok (config, s) =>
    if (promptBool s false).1 then .proceed config else .cancelled

/-! ## The filesystem

A tree is modelled as the list of its entries; a path is its list of
slash-separated components, so `os.RemoveAll dir` removes exactly the
entries whose path has `dir` as a component-wise prefix.  Directory entries
carry `isDir := true` (their `content` is irrelevant). -/

/-- One filesystem entry. -/
structure FileEntry where
  path : List String
  isDir : Bool
  content : String
  mode : Nat
deriving DecidableEq, Repr

/-- A filesystem: the list of entries of the project tree. -/
abbrev FS := List FileEntry

/-- Model of a successful `os.Stat`: some entry has this exact path. -/
def fileExists (path : List String) (fs : FS) : Bool :=
  fs.any (fun f => f.path == path)

/-- Model of `os.WriteFile`/`os.Create` + write: truncate the existing
regular file (keeping its recorded mode) or create it with `mode`. -/
def writeFileFS (path : List String) (content : String) (mode : Nat) (fs : FS) : FS :=
  if fs.any (fun f => f.path == path && !f.isDir) then
    fs.map (fun f => if f.path == path && !f.isDir then { f with content := content } else f)
  else fs ++ [⟨path, false, content, mode⟩]

/-- Model of `os.RemoveAll dir`: drop the directory and everything under it;
by the documented contract of `os.RemoveAll` a missing target is not an
error, so this is total. -/
def removeAllFS (dir : List String) (fs : FS) : FS :=
  fs.filter (fun f => !(dir.isPrefixOf f.path))

/-- Model of `os.Remove` on a regular file path (the caller checks existence
where Go would get an error). -/
def removeFileFS (path : List String) (fs : FS) : FS :=
  fs.filter (fun f => !(f.path == path))

/-- Function `removeFileIfExists` (init.go lines 333-341): `os.Stat`, then
`os.Remove` only when the file exists. -/
def removeFileIfExists (path : List String) (fs : FS) : FS :=
  if fileExists path fs then removeFileFS path fs else fs

/-- The old placeholder module path (init.go line 213). -/
def oldModulePath : String := "github.com/your-org/go-template-project"

/-- Core of `strings.ReplaceAll`: scan the text left to right; when the
counter is positive the character belongs to an occurrence already replaced
and is consumed silently; at counter zero an occurrence of `old` starting
here emits `new` and schedules the rest of the occurrence for silent
consumption, anything else is copied.  This is exactly leftmost,
non-overlapping replacement, written structurally on the text. -/
def replaceScan (old new : List Char) : List Char → Nat → List Char
  | [], _ => []
  | _ :: cs, skip + 1 => replaceScan old new cs skip
  | c :: cs, 0 =>
    if old ≠ [] ∧ old.isPrefixOf (c :: cs) then
      new ++ replaceScan old new cs (old.length - 1)
    else c :: replaceScan old new cs 0

/-- Leftmost, non-overlapping literal replacement of `old` by `new`,
the semantics of Go `strings.ReplaceAll` for a nonempty `old` (the guard in
`replaceScan` makes the function total; the pattern used in init.go is
never empty). -/
def replaceAllList (old new s : List Char) : List Char :=
  replaceScan old new s 0

/-- String version of `strings.ReplaceAll s old new`. -/
def stringReplaceAll (s old new : String) : String :=
  ⟨replaceAllList old.data new.data s.data⟩

/-- True when the path names a Go source file: `strings.HasSuffix(path, ".go")`
(the suffix contains no slash, so it is a condition on the last component). -/
def goFileName (path : List String) : Bool :=
  match path.getLast? with
  | some fname => ".go".data.isSuffixOf fname.data
  | none => false

/-- The per-file body of the `filepath.Walk` callback in `updateImportPaths`
(init.go lines 216-241): directories and non-`.go` files are untouched; in a
`.go` regular file every occurrence of the old placeholder module path is
replaced by the new module path. -/
def updateGoFile (newPath : String) (f : FileEntry) : FileEntry :=
  if !f.isDir && goFileName f.path then
    { f with content := stringReplaceAll f.content oldModulePath newPath }
  else f

/-- Function `updateImportPaths` (init.go lines 212-242).  The first
component is the tree after the walk; the second lists the paths of the
files actually written back (`os.WriteFile` runs only when the replacement
changed the content; the walk never touches the mode of an entry). -/
def updateImportPaths (newPath : String) (fs : FS) : FS × List (List String) :=
  (fs.map (updateGoFile newPath),
   (fs.filter (fun f =>
      !f.isDir && goFileName f.path &&
        !(stringReplaceAll f.content oldModulePath newPath == f.content))).map
     (fun f => f.path))

/-- Function `removeUnwantedComponents` (init.go lines 244-284): the fixed
flag-to-directory mapping, applied in source order. -/
def removeUnwantedComponents (config : ProjectConfig) (fs : FS) : FS :=
  let fs1 := if !config.enableCLI then removeAllFS ["cmd", "cli"] fs else fs
  let fs2 := if !config.enableServer then
      removeAllFS ["internal", "handlers"] (removeAllFS ["cmd", "server"] fs1)
    else fs1
  let fs3 := if !config.enableWorker then removeAllFS ["cmd", "worker"] fs2 else fs2
  let fs4 := if !config.enableDocs then removeAllFS ["docs"] fs3 else fs3
  if !config.enableE2ETests then removeAllFS ["tests"] fs4 else fs4

/-- The per-entry survival condition of `removeUnwantedComponents`: an entry
is kept unless some disabled component claims its directory.  The shape
mirrors the filter composition of the five source-order steps. -/
def keepEntry (config : ProjectConfig) (f : FileEntry) : Bool :=
  ((((config.enableE2ETests || !(["tests"].isPrefixOf f.path)) &&
      (config.enableDocs || !(["docs"].isPrefixOf f.path))) &&
     (config.enableWorker || !(["cmd", "worker"].isPrefixOf f.path))) &&
    (config.enableServer || (!(["internal", "handlers"].isPrefixOf f.path) &&
      !(["cmd", "server"].isPrefixOf f.path)))) &&
   (config.enableCLI || !(["cmd", "cli"].isPrefixOf f.path))

/-- The long literal markdown/README texts produced by `updateIndexMarkdown`,
`updateGettingStartedMarkdown` and the README template (init.go lines
378-824) are pure functions of the config whose exact wording no claim
depends on; they are abstracted as parameters and every theorem quantifies
over them. -/
structure Renderers where
  indexMd : ProjectConfig → String
  gettingStartedMd : ProjectConfig → String
  readmeMd : ProjectConfig → String

/-- Function `updateDocumentationFile` (init.go lines 369-376): nothing to do
when the file does not exist; otherwise write the regenerated content with
mode `0o644`. -/
def updateDocumentationFile (path : List String) (content : String) (fs : FS) : FS :=
  if fileExists path fs then writeFileFS path content 0o644 fs else fs

/-- Function `cleanupDocumentationReferences` (init.go lines 353-367).  Go
iterates the two-entry map in unspecified order; the two paths are distinct
so the writes commute and the listed order is used. -/
def cleanupDocumentationReferences (config : ProjectConfig) (rend : Renderers) (fs : FS) : FS :=
  let fs1 := updateDocumentationFile ["docs", "content", "_index.md"]
    (rend.indexMd config) fs
  updateDocumentationFile ["docs", "content", "docs", "getting-started.md"]
    (rend.gettingStartedMd config) fs1

/-- Function `cleanupTemplateArtifacts` (init.go lines 286-331). -/
def cleanupTemplateArtifacts (config : ProjectConfig) (rend : Renderers) (fs : FS) : FS :=
  let fs1 := removeFileIfExists ["tests", "e2e", "init_e2e_test.go"] fs
  let fs2 :=
    if config.enableE2ETests then
      let fsA := if !config.enableCLI then
          removeFileIfExists ["tests", "e2e", "cli_e2e_test.go"] fs1
        else fs1
      let fsB := if !config.enableServer then
          removeFileIfExists ["tests", "e2e", "server_e2e_test.go"] fsA
        else fsA
      if !config.enableWorker then
        removeFileIfExists ["tests", "e2e", "worker_e2e_test.go"] fsB
      else fsB
    else fs1
  if config.enableDocs then cleanupDocumentationReferences config rend fs2 else fs2

/-- Content written to `go.mod` by `updateGoMod` (init.go lines 199-210). -/
def goModContent (modulePath : String) : String :=
  "module " ++ modulePath ++
    "\n\ngo 1.23\n\nrequire (\n\t// Runtime dependencies will be added as needed\n)\n"

/-- Function `updateGoMod` (init.go lines 199-210). -/
def updateGoMod (config : ProjectConfig) (fs : FS) : FS :=
  writeFileFS ["go.mod"] (goModContent config.modulePath) 0o644 fs

/-- Function `generateReadme` (init.go lines 701-824): render the README
template into `README.md` (created by `os.Create`, default mode `0o644`
after umask). -/
def generateReadme (config : ProjectConfig) (rend : Renderers) (fs : FS) : FS :=
  writeFileFS ["README.md"] (rend.readmeMd config) 0o644 fs

/-! ## Version-control bootstrap (init.go lines 826-892)

External `git` and `pre-commit` invocations are oracles supplied by a
`GitEnv`. -/

/-- How the `git commit` child process behaves: it either finishes after
`duration` seconds (with `none` for success or the combined error/output
message of a failure), or it never finishes. -/
inductive CommitBehavior where
  | finishes (duration : Nat) (failure : Option String)
  | hangs
deriving DecidableEq, Repr

/-- Outcome of the commit step as classified by `initializeGit`. -/
inductive CommitOutcome where
  | ok
  | failed (msg : String)
  | timedOut
deriving DecidableEq, Repr

/-- The deadline of `time.After(10 * time.Second)` (init.go line 873). -/
def commitTimeoutSeconds : Nat := 10

/-- The `select` between the commit goroutine and `time.After` (init.go
lines 860-881): the commit's own result is reported when it arrives before
the deadline; otherwise the child is killed and a timeout is reported.
Completion at the exact deadline instant is a race in Go; the model resolves
it as a timeout, consistent with "has not completed by the deadline". -/
def runCommitWithTimeout (b : CommitBehavior) : CommitOutcome :=
  match b with
  | .finishes d f =>
    if d < commitTimeoutSeconds then
      match f with
      | none => .ok
      | some m => .failed m
    else .timedOut
  | .hangs => .timedOut

/-- Results of the external commands `initializeGit` and
`setupPreCommitHooks` run, `none`/`false` meaning success. -/
structure GitEnv where
  initFailure : Option String
  configNameFails : Bool
  configEmailFails : Bool
  remoteAddFails : Bool
  addFailure : Option String
  commit : CommitBehavior
  preCommitVersionFails : Bool
  preCommitInstallFails : Bool
deriving DecidableEq, Repr

/-- The errors `initializeGit` can return to its caller.  `commitTimedOut`
is the distinct "git commit timed out after 10 seconds" error (init.go
line 880). -/
inductive GitStepError where
  | initFailed (msg : String)
  | stageFailed (msg : String)
  | commitFailed (msg : String)
  | commitTimedOut
deriving DecidableEq, Repr

/-- The warnings the initializer prints without failing. -/
inductive Warning where
  | gitUserNameConfigFailed
  | gitUserEmailConfigFailed
  | gitRemoteAddFailed
  | gitInitFailed (e : GitStepError)
  | preCommitSetupFailed
  | removeInitScriptFailed
  | removeEmptyDirFailed
deriving DecidableEq, Repr

/-- Function `initializeGit` (init.go lines 826-882): `git init` failure and
`git add .` failure are returned to the caller; `git config user.name`,
`git config user.email` and `git remote add` (attempted only when a remote
was given) failures are merely printed; the commit runs under the
ten-second deadline. -/
def initializeGit (config : ProjectConfig) (env : GitEnv) :
    Option GitStepError × List Warning :=
  match env.initFailure with
  | some m => (some (.initFailed m), [])
  | none =>
    let w :=
      (if env.configNameFails then [Warning.gitUserNameConfigFailed] else []) ++
      (if env.configEmailFails then [Warning.gitUserEmailConfigFailed] else []) ++
      (if !(config.gitRemote == "") && env.remoteAddFails then
        [Warning.gitRemoteAddFailed] else [])
    match env.addFailure with
    | some m => (some (.stageFailed m), w)
    | none =>
      match runCommitWithTimeout env.commit with
      | .ok => (none, w)
      | .failed m => (some (.commitFailed m), w)
      | .timedOut => (some .commitTimedOut, w)

/-- Function `setupPreCommitHooks` (init.go lines 884-892): error when
`pre-commit --version` fails ("pre-commit not installed") or when
`pre-commit install` fails. -/
def setupPreCommitHooks (env : GitEnv) : Option String :=
  if env.preCommitVersionFails then some "pre-commit not installed"
  else if env.preCommitInstallFails then some "pre-commit install failed"
  else none

/-- Function `removeEmptyDirectory` (init.go lines 343-351): nothing when the
directory does not exist; `os.Remove` succeeds only on an empty directory,
and its failure is only logged by the caller. -/
def removeEmptyDirectory (dir : List String) (fs : FS) : FS × List Warning :=
  if !fileExists dir fs then (fs, [])
  else if fs.any (fun f => !(f.path == dir) && dir.isPrefixOf f.path) then
    (fs, [Warning.removeEmptyDirFailed])
  else (removeFileFS dir fs, [])

/-- The environment of `initializeProject`: the git/pre-commit oracles and
whether `SKIP_GIT_INIT` is set (init.go line 168). -/
structure InitEnv where
  git : GitEnv
  skipGitInit : Bool

/-- What `initializeProject` produces: the final tree and the warnings it
printed while still reporting success. -/
structure InitResult where
  fs : FS
  warnings : List Warning

/-- The required mutation phase of `initializeProject` (init.go lines
142-165): the five steps whose errors would be fatal, in source order.  In
this model the filesystem steps are total (no I/O-failure oracle), so the
fatal wrappers are unreachable. -/
def requiredPhase (config : ProjectConfig) (rend : Renderers) (fs : FS) : FS :=
  generateReadme config rend
    (cleanupTemplateArtifacts config rend
      (removeUnwantedComponents config
        ((updateImportPaths config.modulePath (updateGoMod config fs)).1)))

/-- The self-removal tail of `initializeProject` (init.go lines 183-194):
delete `scripts/init.go` (an `os.Remove` on a missing file fails, which the
caller only logs), then remove the `scripts` directory if now empty. -/
def finalCleanup (fs1 : FS) : FS × List Warning :=
  let step5 :=
    if fileExists ["scripts", "init.go"] fs1 then
      (removeFileFS ["scripts", "init.go"] fs1, ([] : List Warning))
    else (fs1, [Warning.removeInitScriptFailed])
  let step6 := removeEmptyDirectory ["scripts"] step5.1
  (step6.1, step5.2 ++ step6.2)

/-- Function `initializeProject` (init.go lines 141-197): the required phase,
then the best-effort git bootstrap and hook installation (failures printed,
never propagated), then the self-removal tail. -/
def initializeProject (config : ProjectConfig) (env : InitEnv) (rend : Renderers)
    (fs : FS) : InitResult :=
  let fs1 := requiredPhase config rend fs
  let gitWarnings :=
    if !env.skipGitInit then
      match initializeGit config env.git with
      | (some e, w) => w ++ [Warning.gitInitFailed e]
      | (none, w) => w
    else []
  let hookWarnings :=
    match setupPreCommitHooks env.git with
    | some _ => [Warning.preCommitSetupFailed]
    | none => []
  let fin := finalCleanup fs1
  { fs := fin.1, warnings := gitWarnings ++ hookWarnings ++ fin.2 }

/-- Exit behavior of `main` (init.go lines 49-74): `log.Fatalf` exits with
status 1, a declined confirmation exits with status 0 via `os.Exit(0)`, and
a completed initialization returns normally (status 0). -/
inductive MainOutcome where
  | fatal (msg : String)
  | cancelled
  | success
deriving DecidableEq, Repr

/-- The full environment of one run. -/
structure RunEnv where
  gather : GatherEnv
  init : InitEnv

/-- Result of one run of the initializer. -/
structure RunResult where
  outcome : MainOutcome
  fs : FS
  warnings : List Warning

/-- Function `main` (init.go lines 49-74): gather, then initialize only when
the run was confirmed.  The filesystem is threaded explicitly; the gathering
phase performs no filesystem operation (none appears in its source), so the
tree is returned untouched on both early-exit paths. -/
def runMain (env : RunEnv) (rend : Renderers) (fs : FS) : RunResult :=
  match gatherProjectInfo env.gather with
  | .error m =>
    { outcome := .fatal ("Failed to gather project info: " ++ m),
      fs := fs, warnings := [] }
  | .cancelled => { outcome := .cancelled, fs := fs, warnings := [] }
  | .proceed config =>
    let r := initializeProject config env.init rend fs
    { outcome := .success, fs := r.fs, warnings := r.warnings }

/-! ## Concrete fixtures used by witness theorems -/

/-- Concrete renderers for witnesses. -/
def rendW : Renderers := ⟨fun _ => "index", fun _ => "getting-started", fun _ => "readme"⟩

/-- A git environment where everything succeeds. -/
def gitEnvOk : GitEnv := ⟨none, false, false, false, none, .finishes 1 none, false, false⟩

/-- A git environment where `git init` fails. -/
def gitEnvInitFail : GitEnv := ⟨some "boom", false, false, false, none, .finishes 1 none, false, false⟩

/-- A git environment where staging fails (and identity configuration too). -/
def gitEnvAddFail : GitEnv := ⟨none, true, true, false, some "cannot add", .finishes 1 none, false, false⟩

/-- A git environment where only the best-effort steps fail. -/
def gitEnvCfgFail : GitEnv := ⟨none, true, true, true, none, .finishes 2 none, true, false⟩

/-- A git environment whose commit hangs. -/
def gitEnvHang : GitEnv := ⟨none, false, false, false, none, .hangs, false, false⟩

/-- Init environment for witnesses (git skipped). -/
def initEnvW : InitEnv := ⟨gitEnvOk, true⟩

/-- Witness entries and trees. -/
def entryGoMod : FileEntry :=
  ⟨["go.mod"], false, "module github.com/your-org/go-template-project\n", 420⟩

def entryCliDir : FileEntry := ⟨["cmd", "cli"], true, "", 493⟩

def entryCliMain : FileEntry := ⟨["cmd", "cli", "main.go"], false, "package main", 420⟩

def entryServerMain : FileEntry := ⟨["cmd", "server", "main.go"], false, "package main", 420⟩

def entryScriptsDir : FileEntry := ⟨["scripts"], true, "", 493⟩

def entryInitGo : FileEntry := ⟨["scripts", "init.go"], false, "package main", 420⟩

def entryScriptsOther : FileEntry := ⟨["scripts", "hook.sh"], false, "run", 420⟩

def fsW : FS :=
  [entryGoMod, entryCliDir, entryCliMain, entryServerMain, entryScriptsDir, entryInitGo]

def fsW2 : FS := fsW ++ [entryScriptsOther]

/-- The configuration produced by the witness input streams. -/
def cfgW : ProjectConfig :=
  ⟨"ab", "ab/cd/ef", "A Go application built from go-template-project",
   "Your Name", "your.email@example.com", "MIT", true, true, false, true, false, ""⟩

/-- Same configuration without the server component. -/
def cfgNoServer : ProjectConfig := { cfgW with enableServer := false }

/-- A gather environment whose first answer is an invalid project name. -/
def gatherEnvInvalidName : GatherEnv := ⟨["-x"], some "/work/proj", none, none⟩

/-- A gather environment that accepts the defaults and then declines the
confirmation prompt (end of input, so the `false` default applies). -/
def gatherEnvDecline : GatherEnv := ⟨["ab", "ab/cd/ef"], some "/work/proj", none, none⟩

/-- A gather environment that confirms the run. -/
def gatherEnvConfirm : GatherEnv :=
  ⟨["ab", "ab/cd/ef", "", "", "", "", "", "", "", "", "", "", "y"],
   some "/work/proj", none, none⟩

def runEnvInvalidName : RunEnv := ⟨gatherEnvInvalidName, initEnvW⟩

def runEnvDecline : RunEnv := ⟨gatherEnvDecline, initEnvW⟩

def runEnvConfirm : RunEnv := ⟨gatherEnvConfirm, initEnvW⟩

/-! ## Characterization of the two regular expressions -/

theorem oneOf_rmatch_iff (cs : List Char) (x : List Char) :
    (oneOf cs).rmatch x = true ↔ ∃ c, c ∈ cs ∧ x = [c] := by
  induction cs with
  | nil => simp [oneOf]
  | cons c cs ih =>
    simp only [oneOf, List.foldr_cons] at ih ⊢
    rw [RegularExpression.add_rmatch_iff, RegularExpression.char_rmatch_iff]
    constructor
    · rintro (rfl | h)
      · exact ⟨c, List.mem_cons_self c cs, rfl⟩
      · obtain ⟨d, hd, hx⟩ := ih.mp h
        exact ⟨d, List.mem_cons_of_mem _ hd, hx⟩
    · rintro ⟨d, hd, rfl⟩
      rcases List.mem_cons.mp hd with rfl | hd
      · exact Or.inl rfl
      · exact Or.inr (ih.mpr ⟨d, hd, rfl⟩)

theorem flatten_map_singleton (x : List Char) :
    (x.map (fun c => [c])).flatten = x := by
  induction x with
  | nil => rfl
  | cons c x ih => simp [ih]

theorem star_oneOf_rmatch_iff (cs : List Char) (x : List Char) :
    ((oneOf cs).star).rmatch x = true ↔ ∀ c ∈ x, c ∈ cs := by
  rw [RegularExpression.star_rmatch_iff]
  constructor
  · rintro ⟨S, rfl, hS⟩ c hc
    obtain ⟨t, htS, hct⟩ := List.mem_flatten.mp hc
    obtain ⟨-, ht⟩ := hS t htS
    obtain ⟨d, hd, rfl⟩ := (oneOf_rmatch_iff cs t).mp ht
    rw [List.mem_singleton] at hct
    exact hct ▸ hd
  · intro h
    refine ⟨x.map (fun c => [c]), (flatten_map_singleton x).symm, ?_⟩
    intro t ht
    obtain ⟨c, hc, rfl⟩ := List.mem_map.mp ht
    exact ⟨by simp, (oneOf_rmatch_iff cs [c]).mpr ⟨c, h c hc, rfl⟩⟩

theorem segRE_rmatch_iff (mid : List Char) (x : List Char) :
    (segRE mid).rmatch x = true ↔ SegSpec mid x := by
  unfold segRE SegSpec
  rw [RegularExpression.mul_rmatch_iff]
  constructor
  · rintro ⟨t, u, rfl, ht, hu⟩
    rw [RegularExpression.mul_rmatch_iff] at hu
    obtain ⟨m, v, rfl, hm, hv⟩ := hu
    obtain ⟨c₀, hc₀, rfl⟩ := (oneOf_rmatch_iff _ t).mp ht
    obtain ⟨c₁, hc₁, rfl⟩ := (oneOf_rmatch_iff _ v).mp hv
    rw [star_oneOf_rmatch_iff] at hm
    exact ⟨c₀, m, c₁, rfl, hc₀, hm, hc₁⟩
  · rintro ⟨c₀, m, c₁, rfl, h₀, hm, h₁⟩
    refine ⟨[c₀], m ++ [c₁], rfl, (oneOf_rmatch_iff _ _).mpr ⟨c₀, h₀, rfl⟩, ?_⟩
    rw [RegularExpression.mul_rmatch_iff]
    exact ⟨m, [c₁], rfl, (star_oneOf_rmatch_iff _ _).mpr hm,
      (oneOf_rmatch_iff _ _).mpr ⟨c₁, h₁, rfl⟩⟩

theorem modulePathRE_rmatch_iff (x : List Char) :
    modulePathRE.rmatch x = true ↔ ModulePathSpec x := by
  unfold modulePathRE ModulePathSpec
  rw [RegularExpression.mul_rmatch_iff]
  constructor
  · rintro ⟨s₁, u, rfl, hs₁, hu⟩
    rw [RegularExpression.mul_rmatch_iff] at hu
    obtain ⟨t, u, rfl, ht, hu⟩ := hu
    obtain rfl := (RegularExpression.char_rmatch_iff _ _).mp ht
    rw [RegularExpression.mul_rmatch_iff] at hu
    obtain ⟨s₂, v, rfl, hs₂, hv⟩ := hu
    rw [RegularExpression.mul_rmatch_iff] at hv
    obtain ⟨t, s₃, rfl, ht, hs₃⟩ := hv
    obtain rfl := (RegularExpression.char_rmatch_iff _ _).mp ht
    refine ⟨s₁, s₂, s₃, by simp, (segRE_rmatch_iff _ _).mp hs₁,
      (segRE_rmatch_iff _ _).mp hs₂, (segRE_rmatch_iff _ _).mp hs₃⟩
  · rintro ⟨s₁, s₂, s₃, rfl, h₁, h₂, h₃⟩
    refine ⟨s₁, '/' :: (s₂ ++ '/' :: s₃), rfl, (segRE_rmatch_iff _ _).mpr h₁, ?_⟩
    rw [RegularExpression.mul_rmatch_iff]
    refine ⟨['/'], s₂ ++ '/' :: s₃, rfl, (RegularExpression.char_rmatch_iff _ _).mpr rfl, ?_⟩
    rw [RegularExpression.mul_rmatch_iff]
    refine ⟨s₂, '/' :: s₃, rfl, (segRE_rmatch_iff _ _).mpr h₂, ?_⟩
    rw [RegularExpression.mul_rmatch_iff]
    exact ⟨['/'], s₃, rfl, (RegularExpression.char_rmatch_iff _ _).mpr rfl,
      (segRE_rmatch_iff _ _).mpr h₃⟩

theorem isValidProjectName_iff (name : String) :
    isValidProjectName name = true ↔ SegSpec alnumHyphenChars name.data := by
  unfold isValidProjectName projectNameRE
  rw [Bool.and_eq_true, decide_eq_true_iff, segRE_rmatch_iff]
  constructor
  · exact fun h => h.1
  · intro h
    refine ⟨h, ?_⟩
    obtain ⟨c₀, m, c₁, hx, -, -, -⟩ := h
    have hlen : name.length = name.data.length := rfl
    rw [hlen, hx]
    simp

theorem isValidModulePath_iff (path : String) :
    isValidModulePath path = true ↔ ModulePathSpec path.data := by
  unfold isValidModulePath
  exact modulePathRE_rmatch_iff path.data

theorem modulePathSpec_has_slash {x : List Char} (h : ModulePathSpec x) :
    '/' ∈ x := by
  obtain ⟨s₁, s₂, s₃, rfl, -, -, -⟩ := h
  simp

/-! ## List-prefix helpers -/

theorem isPrefixOf_iff_exists {α : Type} [BEq α] [LawfulBEq α] (l p : List α) :
    l.isPrefixOf p = true ↔ ∃ t, p = l ++ t := by
  induction l generalizing p with
  | nil => simp [List.isPrefixOf]
  | cons a as ih =>
    cases p with
    | nil => simp [List.isPrefixOf]
    | cons b bs =>
      simp only [List.isPrefixOf, Bool.and_eq_true, beq_iff_eq, ih,
        List.cons_append, List.cons.injEq]
      constructor
      · rintro ⟨rfl, t, rfl⟩
        exact ⟨t, rfl, rfl⟩
      · rintro ⟨t, rfl, h⟩
        exact ⟨rfl, t, h⟩

/-! ## Replacement helpers -/

theorem replaceScan_skip (old new : List Char) (l : List Char) :
    ∀ s : List Char, replaceScan old new (l ++ s) l.length =
      replaceScan old new s 0 := by
  induction l with
  | nil => intro s; rfl
  | cons a l ih =>
    intro s
    show replaceScan old new (a :: (l ++ s)) (l.length + 1) = _
    rw [replaceScan]
    exact ih s

theorem replaceAllList_append (old new s : List Char) (h : old ≠ []) :
    replaceAllList old new (old ++ s) = new ++ replaceAllList old new s := by
  cases old with
  | nil => exact absurd rfl h
  | cons a as =>
    show replaceScan (a :: as) new (a :: (as ++ s)) 0 = _
    rw [replaceScan]
    rw [if_pos ⟨h, (isPrefixOf_iff_exists (a :: as) _).mpr ⟨s, by simp⟩⟩]
    have hlen : (a :: as).length - 1 = as.length := by simp
    rw [hlen, replaceScan_skip]
    rfl

/-! ## The pruner as a single filter -/

theorem removeUnwanted_eq_filter (config : ProjectConfig) (fs : FS) :
    removeUnwantedComponents config fs = fs.filter (keepEntry config) := by
  have h1 : ∀ (b : Bool) (p : FileEntry → Bool) (l : FS),
      (if b then l.filter p else l) = l.filter (fun f => !b || p f) := by
    intro b p l
    cases b
    · simp
    · simp
  have h2 : ∀ (b : Bool) (p q : FileEntry → Bool) (l : FS),
      (if b then (l.filter p).filter q else l) =
        l.filter (fun f => !b || (q f && p f)) := by
    intro b p q l
    cases b
    · simp
    · simp [List.filter_filter]
  simp only [removeUnwantedComponents, removeAllFS]
  rw [h1, h1, h1, h2, h1]
  simp only [List.filter_filter]
  apply List.filter_congr
  intro f _
  simp only [keepEntry, Bool.not_not]
  simp [Bool.and_assoc, Bool.and_left_comm, Bool.and_comm]

/-! ## Gathering and pipeline helpers -/

theorem gatherFields_ok_valid (env : GatherEnv) (cfg : ProjectConfig)
    (s : List String) (h : gatherFields env = Except.ok (cfg, s)) :
    isValidProjectName cfg.projectName = true ∧
      isValidModulePath cfg.modulePath = true := by
  unfold gatherFields at h
  cases hc : env.cwd with
  | none =>
    rw [hc] at h
    exact absurd h (by simp)
  | some c =>
    rw [hc] at h
    dsimp only at h
    split at h
    · exact absurd h (by simp)
    · split at h
      · exact absurd h (by simp)
      · rename_i h1 h2
        rw [Except.ok.injEq, Prod.mk.injEq] at h
        obtain ⟨hcfg, -⟩ := h
        subst hcfg
        constructor
        · simpa using h1
        · simpa using h2

theorem mem_removeEmptyDirectory (d : List String) (fs : FS) (f : FileEntry)
    (h : f ∈ (removeEmptyDirectory d fs).1) : f ∈ fs := by
  unfold removeEmptyDirectory at h
  split at h
  · exact h
  · split at h
    · exact h
    · exact (List.mem_filter.mp h).1

theorem removeEmptyDirectory_dir_nonempty (d : List String) (fs : FS) :
    ∀ f ∈ (removeEmptyDirectory d fs).1, f.path = d →
      ∃ g ∈ (removeEmptyDirectory d fs).1,
        d.isPrefixOf g.path = true ∧ g.path ≠ d := by
  intro f hf hfp
  unfold removeEmptyDirectory at hf ⊢
  by_cases h1 : (!fileExists d fs) = true
  · rw [if_pos h1] at hf
    exfalso
    rw [Bool.not_eq_true'] at h1
    have := List.any_eq_false.mp h1 f hf
    simp [hfp] at this
  · rw [if_neg h1] at hf ⊢
    by_cases h2 : (fs.any fun g => !(g.path == d) && d.isPrefixOf g.path) = true
    · rw [if_pos h2] at hf ⊢
      obtain ⟨g, hg, hcond⟩ := List.any_eq_true.mp h2
      rw [Bool.and_eq_true] at hcond
      refine ⟨g, hg, hcond.2, ?_⟩
      simpa using hcond.1
    · rw [if_neg h2] at hf
      exfalso
      have := (List.mem_filter.mp hf).2
      simp [hfp] at this

theorem finalCleanup_no_initgo (fs1 : FS) :
    ∀ f ∈ (finalCleanup fs1).1, f.path ≠ ["scripts", "init.go"] := by
  intro f hf
  unfold finalCleanup at hf
  dsimp only at hf
  have hf' := mem_removeEmptyDirectory _ _ _ hf
  by_cases h : fileExists ["scripts", "init.go"] fs1 = true
  · rw [if_pos h] at hf'
    have := (List.mem_filter.mp hf').2
    simpa using this
  · rw [if_neg h] at hf'
    intro hp
    rw [Bool.not_eq_true] at h
    unfold fileExists at h
    have := List.any_eq_false.mp h f hf'
    simp [hp] at this

theorem finalCleanup_warns (fs1 : FS)
    (h : fileExists ["scripts", "init.go"] fs1 = false) :
    Warning.removeInitScriptFailed ∈ (finalCleanup fs1).2 := by
  unfold finalCleanup
  dsimp only
  rw [if_neg (by simp [h])]
  simp

theorem finalCleanup_scripts_dir (fs1 : FS) :
    ∀ f ∈ (finalCleanup fs1).1, f.path = ["scripts"] →
      ∃ g ∈ (finalCleanup fs1).1,
        ["scripts"].isPrefixOf g.path = true ∧ g.path ≠ ["scripts"] := by
  intro f hf hfp
  unfold finalCleanup at hf ⊢
  dsimp only at hf ⊢
  exact removeEmptyDirectory_dir_nonempty _ _ f hf hfp

/-! ## Claim theorems -/

/-- C2 (amended): `isValidProjectName` accepts exactly the strings matching
the anchored pattern `^[a-zA-Z0-9][a-zA-Z0-9-]*[a-zA-Z0-9]$`: a first
alphanumeric character, interior characters alphanumeric or hyphen, and a
final alphanumeric character, hence at least two characters.  `-abc` and
`abc-` are rejected and the two-character `ab` is accepted; the
single-character `a` is rejected (see the counterexample), contrary to the
original claim's reading of the pattern. -/
theorem projectName_validation_characterization :
    (∀ name : String,
      isValidProjectName name = true ↔ SegSpec alnumHyphenChars name.data) ∧
    isValidProjectName "-abc" = false ∧
    isValidProjectName "abc-" = false ∧
    isValidProjectName "ab" = true :=
  ⟨isValidProjectName_iff, by decide, by decide, by decide⟩

/-- C2 counterexample: the claim asserts that the single-character name "a"
is accepted; `isValidProjectName` rejects it, because the anchored pattern
requires a first and a last character at distinct positions. -/
theorem projectName_single_char_counterexample :
    isValidProjectName "a" = false := by decide

/-- C3 (amended): module-path validation accepts exactly the strings made of
three slash-separated segments, each at least two characters and bounded by
alphanumerics, where the first two segments allow interior `-`, `_`, `.` but
the third allows interior `-` only.  `github.com/org/repo` is accepted;
`a/b` and `invalid-module-path-no-slash` are rejected. -/
theorem modulePath_validation_characterization :
    (∀ path : String, isValidModulePath path = true ↔ ModulePathSpec path.data) ∧
    isValidModulePath "github.com/org/repo" = true ∧
    isValidModulePath "a/b" = false ∧
    isValidModulePath "invalid-module-path-no-slash" = false := by
  refine ⟨isValidModulePath_iff, ?_, by decide, ?_⟩
  · apply (isValidModulePath_iff _).mpr
    refine ⟨"github.com".data, "org".data, "repo".data, by decide, ?_, ?_, ?_⟩
    · exact ⟨'g', "ithub.co".data, 'm', by decide, by decide, by decide, by decide⟩
    · exact ⟨'o', "r".data, 'g', by decide, by decide, by decide, by decide⟩
    · exact ⟨'r', "ep".data, 'o', by decide, by decide, by decide, by decide⟩
  · cases hv : isValidModulePath "invalid-module-path-no-slash" with
    | false => rfl
    | true =>
      exact absurd (modulePathSpec_has_slash ((isValidModulePath_iff _).mp hv))
        (by decide)

/-- C3 counterexample: `aa/bb/c.c` satisfies the claim's acceptance condition
(three slash-separated segments, interior `.` allowed in every segment) but
`isValidModulePath` rejects it: the code's third segment class is
`[a-zA-Z0-9-]`, without `_` and `.`. -/
theorem modulePath_claim_counterexample :
    modulePathClaimedSpec "aa/bb/c.c" = true ∧
      isValidModulePath "aa/bb/c.c" = false :=
  ⟨by decide, by decide⟩

/-- C6: the pruner is idempotent (running it twice on a tree produces the
same end state as running it once) and removing a directory that has no
entry in the tree is a no-op, hence never an error. -/
theorem pruner_idempotent (config : ProjectConfig) (fs : FS) :
    removeUnwantedComponents config (removeUnwantedComponents config fs) =
      removeUnwantedComponents config fs ∧
    (∀ d : List String, (∀ f ∈ fs, d.isPrefixOf f.path = false) →
      removeAllFS d fs = fs) := by
  constructor
  · simp only [removeUnwanted_eq_filter]
    rw [List.filter_filter]
    apply List.filter_congr
    intro f _
    exact Bool.and_self _
  · intro d h
    unfold removeAllFS
    refine List.filter_eq_self.mpr ?_
    intro f hf
    simp [h f hf]

/-- C6 witness. -/
theorem pruner_idempotent_witness :
    removeUnwantedComponents cfgNoServer (removeUnwantedComponents cfgNoServer fsW) =
      removeUnwantedComponents cfgNoServer fsW ∧
    removeAllFS ["docs"] fsW = fsW :=
  ⟨(pruner_idempotent cfgNoServer fsW).1,
   (pruner_idempotent cfgNoServer fsW).2 ["docs"] (by decide)⟩

/-- C7: the commit step runs under the explicit ten-second deadline; a
commit finishing before the deadline reports its own success or failure, a
commit reaching the deadline (or hanging) is killed and reported as the
distinct timeout error, and the classification is always exactly one of
success, failure, or timeout; when no earlier git step failed, the timeout
is what `initializeGit` returns. -/
theorem commit_timeout_spec :
    commitTimeoutSeconds = 10 ∧
    (∀ (d : Nat) (f : Option String), d < commitTimeoutSeconds →
      runCommitWithTimeout (CommitBehavior.finishes d f) =
        match f with
        | none => CommitOutcome.ok
        | some m => CommitOutcome.failed m) ∧
    (∀ (d : Nat) (f : Option String), commitTimeoutSeconds ≤ d →
      runCommitWithTimeout (CommitBehavior.finishes d f) = CommitOutcome.timedOut) ∧
    runCommitWithTimeout CommitBehavior.hangs = CommitOutcome.timedOut ∧
    (∀ b, runCommitWithTimeout b = CommitOutcome.ok ∨
      (∃ m, runCommitWithTimeout b = CommitOutcome.failed m) ∨
      runCommitWithTimeout b = CommitOutcome.timedOut) ∧
    (∀ m, CommitOutcome.timedOut ≠ CommitOutcome.failed m ∧
      GitStepError.commitTimedOut ≠ GitStepError.commitFailed m) ∧
    (∀ (config : ProjectConfig) (genv : GitEnv), genv.initFailure = none →
      genv.addFailure = none →
      runCommitWithTimeout genv.commit = CommitOutcome.timedOut →
      (initializeGit config genv).1 = some GitStepError.commitTimedOut) := by
  refine ⟨rfl, ?_, ?_, rfl, ?_, ?_, ?_⟩
  · intro d f h
    simp [runCommitWithTimeout, h]
  · intro d f h
    simp [runCommitWithTimeout, Nat.not_lt.mpr h]
  · intro b
    cases b with
    | hangs => exact Or.inr (Or.inr rfl)
    | finishes d f =>
      by_cases h : d < commitTimeoutSeconds
      · cases f with
        | none => exact Or.inl (by simp [runCommitWithTimeout, h])
        | some m => exact Or.inr (Or.inl ⟨m, by simp [runCommitWithTimeout, h]⟩)
      · exact Or.inr (Or.inr (by simp [runCommitWithTimeout, h]))
  · intro m
    exact ⟨by simp, by simp⟩
  · intro config genv h1 h2 h3
    simp [initializeGit, h1, h2, h3]

/-- C7 witness. -/
theorem commit_timeout_spec_witness :
    runCommitWithTimeout (CommitBehavior.finishes 3 none) = CommitOutcome.ok ∧
    runCommitWithTimeout (CommitBehavior.finishes 11 none) = CommitOutcome.timedOut ∧
    (initializeGit cfgW gitEnvHang).1 = some GitStepError.commitTimedOut :=
  ⟨commit_timeout_spec.2.1 3 none (by decide),
   commit_timeout_spec.2.2.1 11 none (by decide),
   commit_timeout_spec.2.2.2.2.2.2 cfgW gitEnvHang rfl rfl rfl⟩

/-- C8: repository-init failure and staging failure are propagated by
`initializeGit`, while identity-configuration and remote-add failures are
only logged (the step still returns no error when init, staging and commit
succeed, whatever the best-effort flags); the resulting tree is independent
of the git/hook environment, and a confirmed run always reports success. -/
theorem git_errors_nonfatal (config : ProjectConfig) (genv : GitEnv) :
    (∀ m, genv.initFailure = some m →
      (initializeGit config genv).1 = some (GitStepError.initFailed m)) ∧
    (∀ m, genv.initFailure = none → genv.addFailure = some m →
      (initializeGit config genv).1 = some (GitStepError.stageFailed m)) ∧
    (genv.initFailure = none → genv.addFailure = none →
      runCommitWithTimeout genv.commit = CommitOutcome.ok →
      (initializeGit config genv).1 = none) ∧
    (genv.initFailure = none → genv.configNameFails = true →
      Warning.gitUserNameConfigFailed ∈ (initializeGit config genv).2) ∧
    (genv.initFailure = none → genv.configEmailFails = true →
      Warning.gitUserEmailConfigFailed ∈ (initializeGit config genv).2) ∧
    (∀ (env env' : InitEnv) (rend : Renderers) (fs : FS),
      (initializeProject config env rend fs).fs =
        (initializeProject config env' rend fs).fs) ∧
    (∀ (renv : RunEnv) (rend : Renderers) (fs : FS) (cfg : ProjectConfig),
      gatherProjectInfo renv.gather = GatherResult.proceed cfg →
      (runMain renv rend fs).outcome = MainOutcome.success) := by
  refine ⟨?_, ?_, ?_, ?_, ?_, ?_, ?_⟩
  · intro m h
    simp [initializeGit, h]
  · intro m h1 h2
    simp [initializeGit, h1, h2]
  · intro h1 h2 h3
    simp [initializeGit, h1, h2, h3]
  · intro h1 h2
    cases h3 : genv.addFailure <;> cases h4 : runCommitWithTimeout genv.commit <;>
      simp [initializeGit, h1, h2, h3, h4]
  · intro h1 h2
    cases h3 : genv.addFailure <;> cases h4 : runCommitWithTimeout genv.commit <;>
      simp [initializeGit, h1, h2, h3, h4]
  · intro env env' rend fs
    rfl
  · intro renv rend fs cfg h
    simp [runMain, h]

/-- C8 witness. -/
theorem git_errors_nonfatal_witness :
    (initializeGit cfgW gitEnvInitFail).1 = some (GitStepError.initFailed "boom") ∧
    (initializeGit cfgW gitEnvAddFail).1 = some (GitStepError.stageFailed "cannot add") ∧
    (initializeGit cfgW gitEnvCfgFail).1 = none ∧
    Warning.gitUserNameConfigFailed ∈ (initializeGit cfgW gitEnvCfgFail).2 ∧
    (runMain runEnvConfirm rendW fsW).outcome = MainOutcome.success :=
  ⟨(git_errors_nonfatal cfgW gitEnvInitFail).1 "boom" rfl,
   (git_errors_nonfatal cfgW gitEnvAddFail).2.1 "cannot add" rfl rfl,
   (git_errors_nonfatal cfgW gitEnvCfgFail).2.2.1 rfl rfl rfl,
   (git_errors_nonfatal cfgW gitEnvCfgFail).2.2.2.1 rfl rfl,
   (git_errors_nonfatal cfgW gitEnvOk).2.2.2.2.2.2 runEnvConfirm rendW fsW cfgW
     (by decide)⟩

/-- C9: for every boolean prompt and both default values, a read failure or
an empty answer (after lowercasing and trimming) returns the default, `y`
or `yes` in any letter case returns `true`, and any other nonempty answer
returns `false`. -/
theorem promptBool_spec (d : Bool) (l : String) (rest : List String) :
    (promptBool [] d).1 = d ∧
    (trimSpace (toLowerString l) = "" → (promptBool (l :: rest) d).1 = d) ∧
    ((trimSpace (toLowerString l) = "y" ∨ trimSpace (toLowerString l) = "yes") →
      (promptBool (l :: rest) d).1 = true) ∧
    (trimSpace (toLowerString l) ≠ "" → trimSpace (toLowerString l) ≠ "y" →
      trimSpace (toLowerString l) ≠ "yes" →
      (promptBool (l :: rest) d).1 = false) := by
  refine ⟨rfl, ?_, ?_, ?_⟩
  · intro h
    simp [promptBool, h]
  · intro h
    rcases h with h | h <;> simp [promptBool, h]
  · intro h1 h2 h3
    simp [promptBool, h1, beq_eq_false_iff_ne.mpr h2, beq_eq_false_iff_ne.mpr h3]

/-- C1: no filesystem mutation happens before both validations succeed and
the confirmation prompt is answered yes: a validation failure aborts the run
fatally with the tree untouched; a declined confirmation (whose default
answer is no) exits with status 0 and the tree untouched (manifest, README
and component directories included); a run that proceeds carries a
validated project name and module path; and the confirmation prompt is the
last read, deciding alone between proceeding and cancelling. -/
theorem gather_gates_all_mutations (env : RunEnv) (rend : Renderers) (fs : FS) :
    (∀ m, gatherProjectInfo env.gather = GatherResult.error m →
      (runMain env rend fs).fs = fs ∧
      (runMain env rend fs).outcome =
        MainOutcome.fatal ("Failed to gather project info: " ++ m)) ∧
    (gatherProjectInfo env.gather = GatherResult.cancelled →
      (runMain env rend fs).fs = fs ∧
      (runMain env rend fs).outcome = MainOutcome.cancelled) ∧
    (∀ cfg, gatherProjectInfo env.gather = GatherResult.proceed cfg →
      isValidProjectName cfg.projectName = true ∧
      isValidModulePath cfg.modulePath = true) ∧
    (∀ cfg s, gatherFields env.gather = Except.ok (cfg, s) →
      (promptBool s false).1 = false →
      gatherProjectInfo env.gather = GatherResult.cancelled) := by
  refine ⟨?_, ?_, ?_, ?_⟩
  · intro m h
    simp [runMain, h]
  · intro h
    simp [runMain, h]
  · intro cfg h
    unfold gatherProjectInfo at h
    cases hg : gatherFields env.gather with
    | error m =>
      rw [hg] at h
      exact absurd h (by simp)
    | ok pr =>
      obtain ⟨cfg', s⟩ := pr
      rw [hg] at h
      dsimp only at h
      split at h
      · rw [GatherResult.proceed.injEq] at h
        subst h
        exact gatherFields_ok_valid _ _ _ hg
      · exact absurd h (by simp)
  · intro cfg s hok hb
    unfold gatherProjectInfo
    rw [hok]
    simp [hb]

/-- C1 witness. -/
theorem gather_gates_all_mutations_witness :
    (runMain runEnvInvalidName rendW fsW).fs = fsW ∧
    (runMain runEnvDecline rendW fsW).fs = fsW ∧
    (runMain runEnvDecline rendW fsW).outcome = MainOutcome.cancelled ∧
    isValidProjectName cfgW.projectName = true ∧
    gatherProjectInfo gatherEnvDecline = GatherResult.cancelled := by
  have h1 := (gather_gates_all_mutations runEnvInvalidName rendW fsW).1
    "invalid project name: must contain only letters, numbers, and hyphens"
    (by decide)
  have h2 := (gather_gates_all_mutations runEnvDecline rendW fsW).2.1 (by decide)
  have h3 := (gather_gates_all_mutations runEnvConfirm rendW fsW).2.2.1 cfgW
    (by decide)
  have h4 := (gather_gates_all_mutations runEnvDecline rendW fsW).2.2.2 cfgW []
    rfl rfl
  exact ⟨h1.1, h2.1, h2.2, h3.1, h4⟩

/-- C4: the import rewriter maps every entry of the tree through the
per-file callback: a regular `.go` file gets every occurrence of the old
placeholder module path literally replaced (path, mode and directory flag
untouched), any other entry is returned unchanged, and a path is written
back exactly when the replacement changed the file's content; a replacement
at an occurrence of the old path substitutes the new path and continues
behind it. -/
theorem updateImportPaths_spec (newPath : String) (fs : FS) :
    (updateImportPaths newPath fs).1 = fs.map (updateGoFile newPath) ∧
    (∀ f : FileEntry, f.isDir = false → goFileName f.path = true →
      updateGoFile newPath f =
        { f with content := stringReplaceAll f.content oldModulePath newPath }) ∧
    (∀ f : FileEntry, f.isDir = true ∨ goFileName f.path = false →
      updateGoFile newPath f = f) ∧
    (∀ p, p ∈ (updateImportPaths newPath fs).2 ↔
      ∃ f ∈ fs, f.path = p ∧ f.isDir = false ∧ goFileName f.path = true ∧
        stringReplaceAll f.content oldModulePath newPath ≠ f.content) ∧
    (∀ s : List Char,
      replaceAllList oldModulePath.data newPath.data (oldModulePath.data ++ s) =
        newPath.data ++ replaceAllList oldModulePath.data newPath.data s) := by
  refine ⟨rfl, ?_, ?_, ?_, ?_⟩
  · intro f h1 h2
    simp [updateGoFile, h1, h2]
  · intro f h
    rcases h with h | h <;> simp [updateGoFile, h]
  · intro p
    simp only [updateImportPaths, List.mem_map, List.mem_filter,
      Bool.and_eq_true, Bool.not_eq_true', beq_eq_false_iff_ne]
    constructor
    · rintro ⟨f, ⟨hf, ⟨hd, hg⟩, hne⟩, rfl⟩
      exact ⟨f, hf, rfl, hd, hg, hne⟩
    · rintro ⟨f, hf, rfl, hd, hg, hne⟩
      exact ⟨f, ⟨hf, ⟨hd, hg⟩, hne⟩, rfl⟩
  · intro s
    exact replaceAllList_append _ _ _ (by decide)

/-- C4 witness. -/
theorem updateImportPaths_spec_witness :
    updateGoFile "x/y/z" entryCliMain =
      { entryCliMain with
        content := stringReplaceAll entryCliMain.content oldModulePath "x/y/z" } ∧
    updateGoFile "x/y/z" entryCliDir = entryCliDir ∧
    replaceAllList oldModulePath.data "x/y/z".data (oldModulePath.data ++ []) =
      "x/y/z".data ++ replaceAllList oldModulePath.data "x/y/z".data [] :=
  ⟨(updateImportPaths_spec "x/y/z" fsW).2.1 entryCliMain rfl (by decide),
   (updateImportPaths_spec "x/y/z" fsW).2.2.1 entryCliDir (Or.inl rfl),
   (updateImportPaths_spec "x/y/z" fsW).2.2.2.2 []⟩

/-- C5: the fixed flag-to-directory mapping of the component pruner: for
each disabled flag the mapped directories (with their contents) are gone
after pruning, and for each enabled flag every entry under the mapped
directories survives untouched, independently of the other flags. -/
theorem removeUnwantedComponents_flag_mapping (config : ProjectConfig) (fs : FS) :
    (config.enableCLI = false → ∀ f ∈ removeUnwantedComponents config fs,
      ["cmd", "cli"].isPrefixOf f.path = false) ∧
    (config.enableCLI = true → ∀ f ∈ fs,
      ["cmd", "cli"].isPrefixOf f.path = true →
      f ∈ removeUnwantedComponents config fs) ∧
    (config.enableServer = false → ∀ f ∈ removeUnwantedComponents config fs,
      ["cmd", "server"].isPrefixOf f.path = false ∧
      ["internal", "handlers"].isPrefixOf f.path = false) ∧
    (config.enableServer = true → ∀ f ∈ fs,
      (["cmd", "server"].isPrefixOf f.path = true ∨
        ["internal", "handlers"].isPrefixOf f.path = true) →
      f ∈ removeUnwantedComponents config fs) ∧
    (config.enableWorker = false → ∀ f ∈ removeUnwantedComponents config fs,
      ["cmd", "worker"].isPrefixOf f.path = false) ∧
    (config.enableWorker = true → ∀ f ∈ fs,
      ["cmd", "worker"].isPrefixOf f.path = true →
      f ∈ removeUnwantedComponents config fs) ∧
    (config.enableDocs = false → ∀ f ∈ removeUnwantedComponents config fs,
      ["docs"].isPrefixOf f.path = false) ∧
    (config.enableDocs = true → ∀ f ∈ fs, ["docs"].isPrefixOf f.path = true →
      f ∈ removeUnwantedComponents config fs) ∧
    (config.enableE2ETests = false → ∀ f ∈ removeUnwantedComponents config fs,
      ["tests"].isPrefixOf f.path = false) ∧
    (config.enableE2ETests = true → ∀ f ∈ fs,
      ["tests"].isPrefixOf f.path = true →
      f ∈ removeUnwantedComponents config fs) := by
  refine ⟨?_, ?_, ?_, ?_, ?_, ?_, ?_, ?_, ?_, ?_⟩
  · intro hflag f hf
    rw [removeUnwanted_eq_filter] at hf
    have hk := (List.mem_filter.mp hf).2
    simp only [keepEntry, hflag, Bool.false_or, Bool.and_eq_true,
      Bool.not_eq_true'] at hk
    exact hk.2
  · intro hflag f hf hpre
    rw [removeUnwanted_eq_filter]
    refine List.mem_filter.mpr ⟨hf, ?_⟩
    obtain ⟨t, hp⟩ := (isPrefixOf_iff_exists _ _).mp hpre
    simp [keepEntry, hflag, hp, List.isPrefixOf]
  · intro hflag f hf
    rw [removeUnwanted_eq_filter] at hf
    have hk := (List.mem_filter.mp hf).2
    simp only [keepEntry, hflag, Bool.false_or, Bool.and_eq_true,
      Bool.not_eq_true'] at hk
    exact ⟨hk.1.2.2, hk.1.2.1⟩
  · intro hflag f hf hpre
    rw [removeUnwanted_eq_filter]
    refine List.mem_filter.mpr ⟨hf, ?_⟩
    rcases hpre with hpre | hpre <;>
      obtain ⟨t, hp⟩ := (isPrefixOf_iff_exists _ _).mp hpre <;>
      simp [keepEntry, hflag, hp, List.isPrefixOf]
  · intro hflag f hf
    rw [removeUnwanted_eq_filter] at hf
    have hk := (List.mem_filter.mp hf).2
    simp only [keepEntry, hflag, Bool.false_or, Bool.and_eq_true,
      Bool.not_eq_true'] at hk
    exact hk.1.1.2
  · intro hflag f hf hpre
    rw [removeUnwanted_eq_filter]
    refine List.mem_filter.mpr ⟨hf, ?_⟩
    obtain ⟨t, hp⟩ := (isPrefixOf_iff_exists _ _).mp hpre
    simp [keepEntry, hflag, hp, List.isPrefixOf]
  · intro hflag f hf
    rw [removeUnwanted_eq_filter] at hf
    have hk := (List.mem_filter.mp hf).2
    simp only [keepEntry, hflag, Bool.false_or, Bool.and_eq_true,
      Bool.not_eq_true'] at hk
    exact hk.1.1.1.2
  · intro hflag f hf hpre
    rw [removeUnwanted_eq_filter]
    refine List.mem_filter.mpr ⟨hf, ?_⟩
    obtain ⟨t, hp⟩ := (isPrefixOf_iff_exists _ _).mp hpre
    simp [keepEntry, hflag, hp, List.isPrefixOf]
  · intro hflag f hf
    rw [removeUnwanted_eq_filter] at hf
    have hk := (List.mem_filter.mp hf).2
    simp only [keepEntry, hflag, Bool.false_or, Bool.and_eq_true,
      Bool.not_eq_true'] at hk
    exact hk.1.1.1.1
  · intro hflag f hf hpre
    rw [removeUnwanted_eq_filter]
    refine List.mem_filter.mpr ⟨hf, ?_⟩
    obtain ⟨t, hp⟩ := (isPrefixOf_iff_exists _ _).mp hpre
    simp [keepEntry, hflag, hp, List.isPrefixOf]

/-- C5 witness. -/
theorem removeUnwantedComponents_flag_mapping_witness :
    (["cmd", "server"].isPrefixOf entryGoMod.path = false ∧
      ["internal", "handlers"].isPrefixOf entryGoMod.path = false) ∧
    entryCliMain ∈ removeUnwantedComponents cfgW fsW :=
  ⟨(removeUnwantedComponents_flag_mapping cfgNoServer fsW).2.2.1 rfl entryGoMod
     (by decide),
   (removeUnwantedComponents_flag_mapping cfgW fsW).2.1 rfl entryCliMain
     (by decide) (by decide)⟩

/-- C10: after the required phase of a confirmed run, the initializer always
deletes `scripts/init.go` — whatever the component selection, no entry with
that path remains — logs a warning instead of failing when the script is
already gone, removes the `scripts` directory only when it is empty (it
survives only when some other entry still lives under it), and the run is
still reported successful. -/
theorem self_removal_spec (config : ProjectConfig) (env : InitEnv)
    (rend : Renderers) (fs : FS) :
    (∀ f ∈ (initializeProject config env rend fs).fs,
      f.path ≠ ["scripts", "init.go"]) ∧
    (fileExists ["scripts", "init.go"] (requiredPhase config rend fs) = false →
      Warning.removeInitScriptFailed ∈
        (initializeProject config env rend fs).warnings) ∧
    (∀ f ∈ (initializeProject config env rend fs).fs, f.path = ["scripts"] →
      ∃ g ∈ (initializeProject config env rend fs).fs,
        ["scripts"].isPrefixOf g.path = true ∧ g.path ≠ ["scripts"]) ∧
    (∀ renv : RunEnv,
      gatherProjectInfo renv.gather = GatherResult.proceed config →
      (runMain renv rend fs).outcome = MainOutcome.success) := by
  have hfs : (initializeProject config env rend fs).fs =
      (finalCleanup (requiredPhase config rend fs)).1 := rfl
  refine ⟨?_, ?_, ?_, ?_⟩
  · rw [hfs]
    exact finalCleanup_no_initgo _
  · intro h
    have hmem := finalCleanup_warns _ h
    simp only [initializeProject, List.mem_append]
    exact Or.inr hmem
  · simp only [hfs]
    exact finalCleanup_scripts_dir _
  · intro renv h
    simp [runMain, h]

/-- C10 witness. -/
theorem self_removal_spec_witness :
    entryCliMain.path ≠ ["scripts", "init.go"] ∧
    Warning.removeInitScriptFailed ∈
      (initializeProject cfgW initEnvW rendW [entryGoMod]).warnings ∧
    (∃ g ∈ (initializeProject cfgW initEnvW rendW fsW2).fs,
      ["scripts"].isPrefixOf g.path = true ∧ g.path ≠ ["scripts"]) ∧
    (runMain runEnvConfirm rendW fsW).outcome = MainOutcome.success :=
  ⟨(self_removal_spec cfgW initEnvW rendW fsW).1 entryCliMain (by decide),
   (self_removal_spec cfgW initEnvW rendW [entryGoMod]).2.1 (by decide),
   (self_removal_spec cfgW initEnvW rendW fsW2).2.2.1 entryScriptsDir
     (by decide) rfl,
   (self_removal_spec cfgW initEnvW rendW fsW).2.2.2 runEnvConfirm (by decide)⟩

/-- C9 witness. -/
theorem promptBool_spec_witness :
    (promptBool [] true).1 = true ∧
    (promptBool [" "] false).1 = false ∧
    (promptBool ["YES"] false).1 = true ∧
    (promptBool ["no"] true).1 = false :=
  ⟨(promptBool_spec true "x" []).1,
   (promptBool_spec false " " []).2.1 (by decide),
   (promptBool_spec false "YES" []).2.2.1 (Or.inr (by decide)),
   (promptBool_spec true "no" []).2.2.2 (by decide) (by decide) (by decide)⟩

end InitGo
